import Mathlib

/-!
Verification development for the al-hatab-insights repository.

Two parts:

1. The precomputed multi-level KPI aggregation layer (Data Quality Layer,
   Aggregation Builder, Global Data Layer).  The Python implementation
   (`core/data_layer.py`) is not among the provided sources — only its
   documentation (`src/Text2SQL/DATA_ARCHITECTURE.md`) and the design
   spec are — so these definitions are modelled from the spec, faithful
   to its words, and the claimed invariants are proved of the model.

2. The frontend chat pipeline (`sendQuery` in the floating-bot API
   client, `sendCurrentMessage` in the chat context), embedded directly
   from the TypeScript sources.
-/

namespace AlHatab

/-- A dynamically-typed scalar cell of a RawTable: a string, a (rational)
number, or a missing value.  Modelled from the spec §3: "each row a
mapping from column name to a dynamically-typed scalar (string, number,
or missing)". -/
inductive Val where
  | str (s : String)
  | num (q : ℚ)
  | missing
deriving DecidableEq, Repr

/-- A row of a RawTable: a mapping from column name to scalar, realised
as an association list. -/
abbrev Row := List (String × Val)

/-- Look a column up in a row; absent columns read as `missing`. -/
def lookupRow (r : Row) (c : String) : Val :=
  match r with
  | [] => Val.missing
  | (c', v) :: rest => if c' = c then v else lookupRow rest c

/-- The dimension-key tuple of a row for a list of grouping columns
(spec §4.2: "rows are grouped by the exact key tuple"). -/
def keyOf (cols : List String) (r : Row) : List Val :=
  cols.map (lookupRow r)

/-- Read a numeric cell as a rational; non-numeric and missing cells
contribute 0 to sums (as a pandas sum skips NaN). -/
def numOf (c : String) (r : Row) : ℚ :=
  match lookupRow r c with
  | Val.num q => q
  | _ => 0

/-- One level of an AggregationTable for a single KPI column: an ordered
list of (dimension-key tuple, aggregated value) pairs. -/
abbrev AggTable := List (List Val × ℚ)

/-- Add `v` into the entry of `t` keyed `k`, appending a fresh entry at
the end when `k` is not yet present.  Modelled from the spec §4.2:
groups accumulate in insertion order of first occurrence of each key
tuple. -/
def insertAdd (k : List Val) (v : ℚ) : AggTable → AggTable
  | [] => [(k, v)]
  | (k', s) :: rest =>
      if k' = k then (k', s + v) :: rest else (k', s) :: insertAdd k v rest

/-- Modelled from the spec: the Aggregation Builder's per-level group-by
for one sum-type KPI column (`core/data_layer.py`,
`IntermediateDataFrameBuilder`, is absent from the sources).  Spec §4.2:
"rows are grouped by the exact key tuple; within a group, each KPI
column is computed by a declared formula: either a sum …"; output order
is insertion order of first occurrence of each key tuple. -/
def aggregate (cols : List String) (kpi : Row → ℚ) (rows : List Row) : AggTable :=
  rows.foldl (fun acc r => insertAdd (keyOf cols r) (kpi r) acc) []

/-- The stored value of an aggregation table at a key (0 when absent). -/
def getVal : AggTable → List Val → ℚ
  | [], _ => 0
  | (k', v) :: rest, k => if k' = k then v else getVal rest k

/-- Sum of the stored values of the entries whose key satisfies `p`:
the re-aggregation of an already aggregated table by a coarser key. -/
def sumKeyed (p : List Val → Prop) [DecidablePred p] : AggTable → ℚ
  | [] => 0
  | (k, v) :: rest => (if p k then v else 0) + sumKeyed p rest

/-- Sum of `f` over the rows satisfying `p`. -/
def rowSum (p : Row → Prop) [DecidablePred p] (f : Row → ℚ) : List Row → ℚ
  | [] => 0
  | r :: rest => (if p r then f r else 0) + rowSum p f rest

/-- The grouping-key levels declared for the factory domain, most to
least granular (DATA_ARCHITECTURE.md, "Aggregation Levels"). -/
def factoryLevels : List (List String) :=
  [ ["factory_id", "line_id", "date", "hour"],
    ["factory_id", "line_id", "date"],
    ["factory_id", "line_id"],
    ["factory_id"] ]

/-- The grouping-key levels declared for the DC domain. -/
def dcLevels : List (List String) :=
  [ ["dc_id", "sku_id", "date", "hour"],
    ["dc_id", "sku_id"],
    ["dc_id"] ]

/-- The grouping-key levels declared for the store domain. -/
def storeLevels : List (List String) :=
  [ ["store_id", "sku_id", "date", "hour"],
    ["store_id", "sku_id"],
    ["store_id"] ]

/- ### Basic lemmas about `insertAdd` and folds -/

theorem getVal_insertAdd (k : List Val) (v : ℚ) (t : AggTable) (k' : List Val) :
    getVal (insertAdd k v t) k' = getVal t k' + (if k = k' then v else 0) := by
  induction t with
  | nil =>
      by_cases h : k = k' <;> simp [insertAdd, getVal, h]
  | cons e rest ih =>
      obtain ⟨ke, ve⟩ := e
      by_cases hek : ke = k
      · subst hek
        by_cases h : ke = k' <;> simp [insertAdd, getVal, h] <;> ring
      · simp only [insertAdd, if_neg hek]
        by_cases h : ke = k'
        · have : ¬ (k = k') := fun hk => hek (hk ▸ h)
          simp [getVal, h, this]
        · simp [getVal, h, ih]

theorem sumKeyed_insertAdd (p : List Val → Prop) [DecidablePred p]
    (k : List Val) (v : ℚ) (t : AggTable) :
    sumKeyed p (insertAdd k v t) = sumKeyed p t + (if p k then v else 0) := by
  induction t with
  | nil => simp [insertAdd, sumKeyed]
  | cons e rest ih =>
      obtain ⟨ke, ve⟩ := e
      by_cases hek : ke = k
      · subst hek
        by_cases h : p ke <;> simp [insertAdd, sumKeyed, h] <;> ring
      · simp only [insertAdd, if_neg hek, sumKeyed, ih]
        ring

theorem getVal_aggregate_from (cols : List String) (kpi : Row → ℚ)
    (rows : List Row) (acc : AggTable) (k : List Val) :
    getVal (rows.foldl (fun a r => insertAdd (keyOf cols r) (kpi r) a) acc) k
      = getVal acc k + rowSum (fun r => keyOf cols r = k) kpi rows := by
  induction rows generalizing acc with
  | nil => simp [rowSum]
  | cons r rest ih =>
      simp only [List.foldl_cons, rowSum, ih, getVal_insertAdd]
      ring

/-- The stored value at key `k` is the sum of the KPI over exactly the
rows whose key tuple is `k`. -/
theorem getVal_aggregate (cols : List String) (kpi : Row → ℚ)
    (rows : List Row) (k : List Val) :
    getVal (aggregate cols kpi rows) k
      = rowSum (fun r => keyOf cols r = k) kpi rows := by
  simpa [getVal] using getVal_aggregate_from cols kpi rows [] k

theorem sumKeyed_aggregate_from (p : List Val → Prop) [DecidablePred p]
    (cols : List String) (kpi : Row → ℚ) (rows : List Row) (acc : AggTable) :
    sumKeyed p (rows.foldl (fun a r => insertAdd (keyOf cols r) (kpi r) a) acc)
      = sumKeyed p acc + rowSum (fun r => p (keyOf cols r)) kpi rows := by
  induction rows generalizing acc with
  | nil => simp [rowSum]
  | cons r rest ih =>
      simp only [List.foldl_cons, rowSum, ih, sumKeyed_insertAdd]
      ring

/-- Re-aggregating an aggregation table by a key predicate sums the KPI
over exactly the raw rows whose key satisfies the predicate. -/
theorem sumKeyed_aggregate (p : List Val → Prop) [DecidablePred p]
    (cols : List String) (kpi : Row → ℚ) (rows : List Row) :
    sumKeyed p (aggregate cols kpi rows)
      = rowSum (fun r => p (keyOf cols r)) kpi rows := by
  simpa [sumKeyed] using sumKeyed_aggregate_from p cols kpi rows []

/-- When the coarse column list is an initial segment of the fine one,
a row's coarse key is the corresponding initial segment of its fine key. -/
theorem keyOf_append (cC ext : List String) (r : Row) :
    keyOf cC r = (keyOf (cC ++ ext) r).take cC.length := by
  simp [keyOf, List.map_append, List.take_append_of_le_length]

theorem rowSum_congr (p q : Row → Prop) [DecidablePred p] [DecidablePred q]
    (f : Row → ℚ) (rows : List Row) (h : ∀ r, p r ↔ q r) :
    rowSum p f rows = rowSum q f rows := by
  induction rows with
  | nil => rfl
  | cons r rest ih =>
      by_cases hr : p r
      · simp [rowSum, hr, (h r).mp hr, ih]
      · have hq : ¬ q r := fun hq => hr ((h r).mpr hq)
        simp [rowSum, hr, hq, ih]

/- ### Key uniqueness and insertion order -/

theorem map_fst_insertAdd (k : List Val) (v : ℚ) (t : AggTable) :
    (insertAdd k v t).map Prod.fst
      = if k ∈ t.map Prod.fst then t.map Prod.fst else t.map Prod.fst ++ [k] := by
  induction t with
  | nil => simp [insertAdd]
  | cons e rest ih =>
      obtain ⟨ke, ve⟩ := e
      by_cases hek : ke = k
      · subst hek
        simp [insertAdd]
      · have hk : ¬ (k = ke) := fun h => hek h.symm
        simp only [insertAdd, if_neg hek, List.map_cons, List.mem_cons, hk,
          false_or, ih]
        by_cases hm : k ∈ rest.map Prod.fst <;> simp [hm]

theorem nodup_insertAdd (k : List Val) (v : ℚ) (t : AggTable)
    (h : (t.map Prod.fst).Nodup) : ((insertAdd k v t).map Prod.fst).Nodup := by
  rw [map_fst_insertAdd]
  by_cases hm : k ∈ t.map Prod.fst
  · simpa [hm] using h
  · have : (t.map Prod.fst ++ [k]).Nodup := by
      rw [List.nodup_append]
      refine ⟨h, List.nodup_singleton k, ?_⟩
      intro a ha hak
      exact hm ((List.mem_singleton.mp hak) ▸ ha)
    simpa [hm] using this

theorem nodup_aggregate_from (cols : List String) (kpi : Row → ℚ)
    (rows : List Row) (acc : AggTable) (h : (acc.map Prod.fst).Nodup) :
    (((rows.foldl (fun a r => insertAdd (keyOf cols r) (kpi r) a) acc)).map
        Prod.fst).Nodup := by
  induction rows generalizing acc with
  | nil => simpa using h
  | cons r rest ih =>
      simpa using ih (insertAdd (keyOf cols r) (kpi r) acc) (nodup_insertAdd _ _ _ h)

/-- The first-occurrence key order: keys of `rows` under `cols`, in order
of first occurrence, skipping keys already in `seen`. -/
def firstOccAux (cols : List String) (seen : List (List Val)) : List Row → List (List Val)
  | [] => []
  | r :: rest =>
      if keyOf cols r ∈ seen then firstOccAux cols seen rest
      else keyOf cols r :: firstOccAux cols (keyOf cols r :: seen) rest

/-- The first-occurrence order of the key tuples of `rows`. -/
def firstOccKeys (cols : List String) (rows : List Row) : List (List Val) :=
  firstOccAux cols [] rows

theorem firstOccAux_congr (cols : List String) (s₁ s₂ : List (List Val))
    (rows : List Row) (h : ∀ k, k ∈ s₁ ↔ k ∈ s₂) :
    firstOccAux cols s₁ rows = firstOccAux cols s₂ rows := by
  induction rows generalizing s₁ s₂ with
  | nil => rfl
  | cons r rest ih =>
      by_cases hm : keyOf cols r ∈ s₁
      · simp [firstOccAux, hm, (h _).mp hm, ih s₁ s₂ h]
      · have hm₂ : ¬ keyOf cols r ∈ s₂ := fun h₂ => hm ((h _).mpr h₂)
        simp only [firstOccAux, if_neg hm, if_neg hm₂]
        refine congrArg _ (ih _ _ fun k => ?_)
        simp [h k]

theorem map_fst_foldl_firstOcc (cols : List String) (kpi : Row → ℚ)
    (rows : List Row) (acc : AggTable) :
    ((rows.foldl (fun a r => insertAdd (keyOf cols r) (kpi r) a) acc)).map Prod.fst
      = acc.map Prod.fst ++ firstOccAux cols (acc.map Prod.fst) rows := by
  induction rows generalizing acc with
  | nil => simp [firstOccAux]
  | cons r rest ih =>
      simp only [List.foldl_cons, ih, map_fst_insertAdd]
      by_cases hm : keyOf cols r ∈ acc.map Prod.fst
      · simp [firstOccAux, hm]
      · simp only [if_neg hm, firstOccAux, List.append_assoc, List.singleton_append]
        refine congrArg _ (congrArg _ (firstOccAux_congr cols _ _ rest fun k => ?_))
        simp [or_comm]

/-- The keys of an aggregation table are exactly the first-occurrence
order of the key tuples of the input rows. -/
theorem map_fst_aggregate (cols : List String) (kpi : Row → ℚ) (rows : List Row) :
    (aggregate cols kpi rows).map Prod.fst = firstOccKeys cols rows := by
  simpa [firstOccKeys] using map_fst_foldl_firstOcc cols kpi rows []

/-- The Global Data Layer's precomputed tables: one aggregation table per
(domain × level) pair, with a representative sum-type KPI column per
domain.  Modelled from the spec §4.3 (`core/data_layer.py` is absent
from the sources). -/
structure GlobalDataLayer where
  factory : List AggTable
  dc : List AggTable
  store : List AggTable
deriving DecidableEq, Repr

/-- Modelled from the spec: the one-time build of the Global Data Layer,
invoking the Aggregation Builder for every declared domain/level
(spec §4.3). -/
def buildGlobalDataLayer (kpiF kpiD kpiS : Row → ℚ)
    (fRows dRows sRows : List Row) : GlobalDataLayer :=
  { factory := factoryLevels.map fun cols => aggregate cols kpiF fRows,
    dc := dcLevels.map fun cols => aggregate cols kpiD dRows,
    store := storeLevels.map fun cols => aggregate cols kpiS sRows }

/- ### Data Quality Layer -/

/-- A declarative rule set: the checked columns, each with its
minimum-value rule (spec §4.1: "per column: type, nullability, minimum
value, clip policy"; quantity columns carry minimum 0). -/
abbrev RuleSet := List (String × ℚ)

/-- The minimum-value rule declared for a column, if any. -/
def ruleFor : RuleSet → String → Option ℚ
  | [], _ => none
  | (c', m) :: rest, c => if c' = c then some m else ruleFor rest c

/-- Modelled from the spec §4.1: clean one cell against a minimum-value
rule.  A numeric value below the minimum is replaced by the minimum; a
type-coercion failure (text in a numeric column) is treated as missing
for that cell after tallying; missing stays missing. -/
def cleanVal (m : ℚ) : Val → Val
  | Val.num q => if q < m then Val.num m else Val.num q
  | Val.str _ => Val.missing
  | Val.missing => Val.missing

/-- Whether a cell is tallied in `invalid_values` for a column with
minimum-value rule `m`: below-minimum numerics and coercion failures. -/
def isInvalidCell (m : ℚ) : Val → Bool
  | Val.num q => decide (q < m)
  | Val.str _ => true
  | Val.missing => false

/-- Whether a cell is tallied in `missing_values`. -/
def isMissingCell : Val → Bool
  | Val.missing => true
  | _ => false

/-- Modelled from the spec §4.1: clean a row by applying each declared
column rule to the corresponding cell. -/
def cleanRow (rules : RuleSet) (r : Row) : Row :=
  r.map fun cv =>
    match ruleFor rules cv.1 with
    | some m => (cv.1, cleanVal m cv.2)
    | none => cv

/-- Modelled from the spec §4.1: the Data Quality Layer's cleaned table. -/
def cleanRows (rules : RuleSet) (rows : List Row) : List Row :=
  rows.map (cleanRow rules)

/-- The `invalid_values` tally for a column: one count per row whose
cell in that column is below the declared minimum or fails coercion. -/
def invalidValues (rules : RuleSet) (rows : List Row) (c : String) : ℕ :=
  match ruleFor rules c with
  | some m => rows.countP fun r => isInvalidCell m (lookupRow r c)
  | none => 0

/-- The `missing_values` tally for a column. -/
def missingValues (rules : RuleSet) (rows : List Row) (c : String) : ℕ :=
  match ruleFor rules c with
  | some _ => rows.countP fun r => isMissingCell (lookupRow r c)
  | none => 0

/-- Total invalid count over the checked columns. -/
def totalInvalid (rules : RuleSet) (rows : List Row) : ℕ :=
  (rules.map Prod.fst).foldr (fun c acc => invalidValues rules rows c + acc) 0

/-- Total missing count over the checked columns. -/
def totalMissing (rules : RuleSet) (rows : List Row) : ℕ :=
  (rules.map Prod.fst).foldr (fun c acc => missingValues rules rows c + acc) 0

/-- Modelled from the spec §4.1: `quality_score` = 1 − (total missing +
total invalid) / (rows × columns checked), floored at 0. -/
def qualityScore (rules : RuleSet) (rows : List Row) : ℚ :=
  max 0 (1 - ((totalMissing rules rows + totalInvalid rules rows : ℕ) : ℚ)
      / ((rows.length : ℚ) * (rules.length : ℚ)))

/-- Per-table record produced by the Data Quality Layer (spec §3). -/
structure QualityReport where
  missing_values : String → ℕ
  invalid_values : String → ℕ
  rows_dropped : ℕ
  quality_score : ℚ

/-- Modelled from the spec §4.1: the QualityReport of a cleaned table
(rows are retained, not dropped, under the default policy). -/
def qualityReport (rules : RuleSet) (rows : List Row) : QualityReport :=
  { missing_values := missingValues rules rows,
    invalid_values := invalidValues rules rows,
    rows_dropped := 0,
    quality_score := qualityScore rules rows }

/- ### Safe division and ratio KPIs -/

/-- Modelled from the spec (§3 invariants; DATA_ARCHITECTURE.md "Division
by Zero: Handled with safe division (returns 0 or default)"): division
returning the defined default 0 on a zero denominator. -/
def safeDiv (a b : ℚ) : ℚ := if b = 0 then 0 else a / b

/-- Days of inventory cover: opening stock over predicted demand,
computed with safe division. -/
def daysCover (opening_stock_units predicted_demand : ℚ) : ℚ :=
  safeDiv opening_stock_units predicted_demand

/-- Waste percentage: a ratio-of-sums percentage KPI via safe division. -/
def wastePct (waste_units total_units : ℚ) : ℚ :=
  safeDiv (100 * waste_units) total_units

/-- Service-level percentage: a ratio-of-sums percentage KPI via safe
division. -/
def serviceLevelPct (fulfilled_units demanded_units : ℚ) : ℚ :=
  safeDiv (100 * fulfilled_units) demanded_units

/- ### Global Data Layer lookups -/

/-- Look a dimension up in a filter mapping. -/
def assocVal : List (String × Val) → String → Option Val
  | [], _ => none
  | (c', v) :: rest, c => if c' = c then some v else assocVal rest c

/-- Whether a key tuple matches a filter mapping: a present filter
dimension means exact-match equality, an absent one means no
restriction (spec §4.3). -/
def matchesFilter (cols : List String) (fil : List (String × Val)) (key : List Val) : Bool :=
  (cols.zip key).all fun cv =>
    match assocVal fil cv.1 with
    | some v => decide (cv.2 = v)
    | none => true

/-- Filter an aggregation table by a filter mapping over its key columns. -/
def getRows (t : AggTable) (cols : List String) (fil : List (String × Val)) : AggTable :=
  t.filter fun e => matchesFilter cols fil e.1

/-- The three source domains. -/
inductive Domain where
  | factory | dc | store
deriving DecidableEq, Repr

/-- The aggregation tables held for a domain. -/
def domainTables (g : GlobalDataLayer) : Domain → List AggTable
  | .factory => g.factory
  | .dc => g.dc
  | .store => g.store

/-- The declared grouping-key levels of a domain. -/
def domainLevels : Domain → List (List String)
  | .factory => factoryLevels
  | .dc => dcLevels
  | .store => storeLevels

/-- Modelled from the spec §4.3: `get(domain, level, filter)` returns the
matching rows of the corresponding AggregationTable; it is a total
function into a row list, so a miss yields `[]` rather than an error. -/
def GlobalDataLayer.get (g : GlobalDataLayer) (d : Domain) (lvl : ℕ)
    (fil : List (String × Val)) : AggTable :=
  getRows ((domainTables g d).getD lvl []) ((domainLevels d).getD lvl []) fil

/-- Modelled from the spec §6: `getFactoryKpis` picks the most specific
matching aggregation level given which filters are present — both
given → the finest per-line level (factory_line), neither given → the
factory-overall level — and exact-matches the supplied keys. -/
def getFactoryKpis (g : GlobalDataLayer) (fid lid : Option String) : AggTable :=
  match fid, lid with
  | some f, some l =>
      (g.factory.getD 2 []).filter fun e => decide (e.1 = [Val.str f, Val.str l])
  | some f, none =>
      (g.factory.getD 3 []).filter fun e => decide (e.1 = [Val.str f])
  | none, some l =>
      (g.factory.getD 2 []).filter fun e => decide (e.1.drop 1 = [Val.str l])
  | none, none => g.factory.getD 3 []

/- ### Supporting lemmas: cleaning, membership, uniqueness of lookups -/

theorem lookupRow_cleanRow (rules : RuleSet) (r : Row) (c : String) (m : ℚ)
    (h : ruleFor rules c = some m) :
    lookupRow (cleanRow rules r) c = cleanVal m (lookupRow r c) := by
  induction r with
  | nil => simp [cleanRow, lookupRow, cleanVal]
  | cons cv rest ih =>
      obtain ⟨c', v⟩ := cv
      by_cases hc : c' = c
      · subst hc
        simp [cleanRow, lookupRow, h]
      · cases hr : ruleFor rules c' <;>
          simp [cleanRow, lookupRow, hr, hc] <;>
          simpa [cleanRow] using ih

/-- A cell below the declared minimum. -/
def isBelowMin (m : ℚ) : Val → Bool
  | Val.num q => decide (q < m)
  | _ => false

/-- A type-coercion failure: text where a number is expected. -/
def isCoerceFail : Val → Bool
  | Val.str _ => true
  | _ => false

theorem countP_or_disj {α : Type} (f g : α → Bool) (l : List α)
    (h : ∀ a, f a = true → g a = false) :
    l.countP (fun a => f a || g a) = l.countP f + l.countP g := by
  induction l with
  | nil => simp
  | cons a rest ih =>
      by_cases hf : f a = true
      · simp [List.countP_cons, hf, h a hf, ih]
        omega
      · simp only [Bool.not_eq_true] at hf
        by_cases hg : g a = true <;> simp [List.countP_cons, hf, hg, ih] <;> omega

theorem isInvalidCell_split (m : ℚ) (v : Val) :
    isInvalidCell m v = (isBelowMin m v || isCoerceFail v) := by
  cases v <;> simp [isInvalidCell, isBelowMin, isCoerceFail]

theorem mem_insertAdd_keys (k k' : List Val) (v : ℚ) (t : AggTable) :
    k' ∈ (insertAdd k v t).map Prod.fst ↔ k' ∈ t.map Prod.fst ∨ k' = k := by
  rw [map_fst_insertAdd]
  by_cases hm : k ∈ t.map Prod.fst
  · simp only [if_pos hm]
    constructor
    · exact Or.inl
    · rintro (h | rfl)
      · exact h
      · exact hm
  · simp [hm]

theorem mem_foldl_keys (cols : List String) (kpi : Row → ℚ) (rows : List Row)
    (acc : AggTable) (k : List Val) :
    (k ∈ ((rows.foldl (fun a r => insertAdd (keyOf cols r) (kpi r) a) acc)).map Prod.fst)
      ↔ k ∈ acc.map Prod.fst ∨ ∃ r ∈ rows, keyOf cols r = k := by
  induction rows generalizing acc with
  | nil => simp
  | cons r rest ih =>
      simp only [List.foldl_cons, ih, mem_insertAdd_keys, List.mem_cons]
      constructor
      · rintro ((h | rfl) | ⟨r', hr', hk⟩)
        · exact Or.inl h
        · exact Or.inr ⟨r, Or.inl rfl, rfl⟩
        · exact Or.inr ⟨r', Or.inr hr', hk⟩
      · rintro (h | ⟨r', (rfl | hr'), hk⟩)
        · exact Or.inl (Or.inl h)
        · exact Or.inl (Or.inr hk.symm)
        · exact Or.inr ⟨r', hr', hk⟩

/-- A key appears in an aggregation table exactly when some input row
has that key tuple. -/
theorem mem_aggregate_keys (cols : List String) (kpi : Row → ℚ) (rows : List Row)
    (k : List Val) :
    k ∈ (aggregate cols kpi rows).map Prod.fst ↔ ∃ r ∈ rows, keyOf cols r = k := by
  simpa [aggregate] using mem_foldl_keys cols kpi rows [] k

theorem nodup_aggregate (cols : List String) (kpi : Row → ℚ) (rows : List Row) :
    ((aggregate cols kpi rows).map Prod.fst).Nodup :=
  nodup_aggregate_from cols kpi rows [] (by simp)

theorem filter_key_of_nodup (t : AggTable) (k : List Val)
    (hnd : (t.map Prod.fst).Nodup) (hk : k ∈ t.map Prod.fst) :
    (t.filter fun e => decide (e.1 = k)).length = 1 := by
  induction t with
  | nil => simp at hk
  | cons e rest ih =>
      obtain ⟨ke, ve⟩ := e
      simp only [List.map_cons, List.nodup_cons] at hnd
      by_cases hek : ke = k
      · subst hek
        have hrest : (rest.filter fun e => decide (e.1 = ke)) = [] := by
          rw [List.filter_eq_nil]
          intro a ha hak
          exact hnd.1 (by
            simp only [decide_eq_true_eq] at hak
            exact hak ▸ List.mem_map_of_mem Prod.fst ha)
        simp [List.filter_cons, hrest]
      · have hk' : k ∈ rest.map Prod.fst := by
          simp only [List.map_cons, List.mem_cons] at hk
          rcases hk with h | h
          · exact absurd h.symm hek
          · exact h
        simp [List.filter_cons, hek, ih hnd.2 hk']

theorem insertAdd_val_nonneg (k : List Val) (v : ℚ) (t : AggTable)
    (ht : ∀ e ∈ t, 0 ≤ e.2) (hv : 0 ≤ v) :
    ∀ e ∈ insertAdd k v t, 0 ≤ e.2 := by
  induction t with
  | nil =>
      intro e he
      simp only [insertAdd, List.mem_singleton] at he
      simpa [he] using hv
  | cons e' rest ih =>
      obtain ⟨ke, ve⟩ := e'
      intro e he
      by_cases hek : ke = k
      · subst hek
        simp only [insertAdd, if_pos rfl] at he
        have h0 : (0:ℚ) ≤ ve := by simpa using ht (ke, ve) (List.mem_cons_self _ _)
        cases he with
        | head => simpa using add_nonneg h0 hv
        | tail _ he => exact ht e (List.mem_cons_of_mem _ he)
      · simp only [insertAdd, if_neg hek, List.mem_cons] at he
        rcases he with rfl | he
        · exact ht (ke, ve) (List.mem_cons_self _ _)
        · exact ih (fun e' he' => ht e' (List.mem_cons_of_mem _ he')) e he

theorem aggregate_val_nonneg (cols : List String) (kpi : Row → ℚ) (rows : List Row)
    (h : ∀ r ∈ rows, 0 ≤ kpi r) :
    ∀ e ∈ aggregate cols kpi rows, 0 ≤ e.2 := by
  suffices H : ∀ acc : AggTable, (∀ e ∈ acc, 0 ≤ e.2) →
      (∀ r ∈ rows, 0 ≤ kpi r) →
      ∀ e ∈ rows.foldl (fun a r => insertAdd (keyOf cols r) (kpi r) a) acc, 0 ≤ e.2 by
    exact H [] (by simp) h
  clear h
  induction rows with
  | nil => intro acc hacc _ e he; exact hacc e (by simpa using he)
  | cons r rest ih =>
      intro acc hacc hrows e he
      refine ih (insertAdd (keyOf cols r) (kpi r) acc) ?_
        (fun r' hr' => hrows r' (List.mem_cons_of_mem _ hr')) e (by simpa using he)
      exact insertAdd_val_nonneg _ _ _ hacc (hrows r (List.mem_cons_self _ _))

/- ### Claim theorems -/

/-- Claim C1: for every domain and every adjacent pair of aggregation
levels — the coarse key column list is an initial segment of the fine
one, as in every declared level list — re-aggregating the fine-level
table's sum-type KPI column by the coarse level's key tuple yields
exactly the coarse-level table's own stored value, for every key present
in the coarse table. -/
theorem C1_aggregation_consistency (cC ext : List String) (kpi : Row → ℚ)
    (rows : List Row) (k : List Val)
    (hk : k ∈ (aggregate cC kpi rows).map Prod.fst) :
    sumKeyed (fun κ => κ.take cC.length = k) (aggregate (cC ++ ext) kpi rows)
      = getVal (aggregate cC kpi rows) k := by
  rw [sumKeyed_aggregate, getVal_aggregate]
  refine rowSum_congr _ _ kpi rows fun r => ?_
  rw [← keyOf_append]

/-- Witness for C1: on a concrete factory table, re-aggregating the
factory_line level by the factory key reproduces the factory level's
stored value for a present key. -/
theorem C1_aggregation_consistency_witness :
    sumKeyed (fun κ => κ.take 1 = [Val.str "F1"])
        (aggregate (["factory_id"] ++ ["line_id"]) (numOf "waste_units")
          [ [("factory_id", Val.str "F1"), ("line_id", Val.str "L1"),
             ("waste_units", Val.num 3)],
            [("factory_id", Val.str "F1"), ("line_id", Val.str "L2"),
             ("waste_units", Val.num 4)],
            [("factory_id", Val.str "F2"), ("line_id", Val.str "L1"),
             ("waste_units", Val.num 5)] ])
      = getVal (aggregate ["factory_id"] (numOf "waste_units")
          [ [("factory_id", Val.str "F1"), ("line_id", Val.str "L1"),
             ("waste_units", Val.num 3)],
            [("factory_id", Val.str "F1"), ("line_id", Val.str "L2"),
             ("waste_units", Val.num 4)],
            [("factory_id", Val.str "F2"), ("line_id", Val.str "L1"),
             ("waste_units", Val.num 5)] ]) [Val.str "F1"] := by
  refine C1_aggregation_consistency ["factory_id"] ["line_id"] _ _ _ ?_
  rw [mem_aggregate_keys]
  refine ⟨[("factory_id", Val.str "F1"), ("line_id", Val.str "L1"),
    ("waste_units", Val.num 3)], by simp, ?_⟩
  simp [keyOf, lookupRow]

/-- Claim C2: for a column declared with a minimum-value rule, the Data
Quality Layer replaces each value strictly below the minimum by the
minimum (so every numeric value of the cleaned column is at least the
minimum), tallies invalid_values[column] once per below-minimum value
(plus once per coercion failure), and consequently, for quantity
columns with minimum 0, no value of the column is negative in the
cleaned table or in any aggregation built from it. -/
theorem C2_minimum_rule_cleaning (rules : RuleSet) (rows : List Row)
    (c : String) (m : ℚ) (h : ruleFor rules c = some m) :
    (∀ r ∈ cleanRows rules rows, ∀ q : ℚ, lookupRow r c = Val.num q → m ≤ q)
    ∧ invalidValues rules rows c
        = (rows.countP fun r => isBelowMin m (lookupRow r c))
          + (rows.countP fun r => isCoerceFail (lookupRow r c))
    ∧ (m = 0 → ∀ (cols : List String) (e : List Val × ℚ),
        e ∈ aggregate cols (numOf c) (cleanRows rules rows) → 0 ≤ e.2) := by
  refine ⟨?_, ?_, ?_⟩
  · intro r hr q hq
    obtain ⟨r₀, hr₀, rfl⟩ := List.mem_map.mp hr
    rw [lookupRow_cleanRow rules r₀ c m h] at hq
    cases hv : lookupRow r₀ c with
    | num q₀ =>
        rw [hv] at hq
        by_cases hlt : q₀ < m
        · simp only [cleanVal, if_pos hlt, Val.num.injEq] at hq
          exact le_of_eq hq
        · simp only [cleanVal, if_neg hlt, Val.num.injEq] at hq
          exact hq ▸ le_of_not_lt hlt
    | str s => rw [hv] at hq; simp [cleanVal] at hq
    | missing => rw [hv] at hq; simp [cleanVal] at hq
  · unfold invalidValues
    rw [h]
    calc (rows.countP fun r => isInvalidCell m (lookupRow r c))
        = rows.countP fun r =>
            (isBelowMin m (lookupRow r c) || isCoerceFail (lookupRow r c)) := by
          refine List.countP_congr fun r _ => ?_
          rw [isInvalidCell_split]
      _ = _ := by
          refine countP_or_disj _ _ rows fun r hb => ?_
          cases hv : lookupRow r c <;> simp [isBelowMin, isCoerceFail, hv] at hb ⊢
  · rintro rfl cols e he
    refine aggregate_val_nonneg cols (numOf c) _ (fun r hr => ?_) e he
    obtain ⟨r₀, hr₀, rfl⟩ := List.mem_map.mp hr
    unfold numOf
    rw [lookupRow_cleanRow rules r₀ c 0 h]
    cases hv : lookupRow r₀ c with
    | num q₀ =>
        by_cases hlt : q₀ < 0
        · simp [cleanVal, hlt]
        · simp [cleanVal, hlt, le_of_not_lt hlt]
    | str s => simp [cleanVal]
    | missing => simp [cleanVal]

/-- Witness for C2: a concrete rule set with minimum 0 on waste_units,
applied to a table with a negative cell, at that column. -/
theorem C2_minimum_rule_cleaning_witness :
    ruleFor [("waste_units", (0:ℚ))] "waste_units" = some 0
    ∧ ((∀ r ∈ cleanRows [("waste_units", (0:ℚ))]
          [[("waste_units", Val.num (-5))], [("waste_units", Val.num 2)]],
        ∀ q : ℚ, lookupRow r "waste_units" = Val.num q → (0:ℚ) ≤ q)
      ∧ invalidValues [("waste_units", (0:ℚ))]
          [[("waste_units", Val.num (-5))], [("waste_units", Val.num 2)]] "waste_units"
        = ([[("waste_units", Val.num (-5))], [("waste_units", Val.num 2)]].countP
            fun r => isBelowMin 0 (lookupRow r "waste_units"))
          + ([[("waste_units", Val.num (-5))], [("waste_units", Val.num 2)]].countP
            fun r => isCoerceFail (lookupRow r "waste_units"))
      ∧ ((0:ℚ) = 0 → ∀ (cols : List String) (e : List Val × ℚ),
          e ∈ aggregate cols (numOf "waste_units")
            (cleanRows [("waste_units", (0:ℚ))]
              [[("waste_units", Val.num (-5))], [("waste_units", Val.num 2)]]) →
          0 ≤ e.2)) :=
  ⟨by simp [ruleFor],
   C2_minimum_rule_cleaning [("waste_units", (0:ℚ))]
     [[("waste_units", Val.num (-5))], [("waste_units", Val.num 2)]]
     "waste_units" 0 (by simp [ruleFor])⟩

/-- Claim C3: the QualityReport's quality_score equals 1 − (total
missing + total invalid) / (rows × columns checked), floored at 0, and
is therefore always between 0 and 1. -/
theorem C3_quality_score_bounds (rules : RuleSet) (rows : List Row) :
    (qualityReport rules rows).quality_score
      = max 0 (1 - ((totalMissing rules rows + totalInvalid rules rows : ℕ) : ℚ)
          / ((rows.length : ℚ) * (rules.length : ℚ)))
    ∧ 0 ≤ (qualityReport rules rows).quality_score
    ∧ (qualityReport rules rows).quality_score ≤ 1 := by
  refine ⟨rfl, le_max_left _ _, ?_⟩
  have hd : (0:ℚ) ≤ ((totalMissing rules rows + totalInvalid rules rows : ℕ) : ℚ)
      / ((rows.length : ℚ) * (rules.length : ℚ)) :=
    div_nonneg (Nat.cast_nonneg _) (mul_nonneg (Nat.cast_nonneg _) (Nat.cast_nonneg _))
  show max 0 (1 - _) ≤ 1
  exact max_le (by norm_num) (by linarith)

/-- Claim C4: every ratio/percentage KPI computed via safe division
returns the defined default 0 when its denominator is zero; in
particular days_cover with predicted_demand 0 is 0, not undefined or
infinite. -/
theorem C4_division_safety : ∀ x : ℚ,
    safeDiv x 0 = 0 ∧ daysCover x 0 = 0 ∧ wastePct x 0 = 0
      ∧ serviceLevelPct x 0 = 0 := by
  intro x
  refine ⟨?_, ?_, ?_, ?_⟩ <;> simp [safeDiv, daysCover, wastePct, serviceLevelPct]

/-- Claim C5: in every AggregationTable produced by the Aggregation
Builder, the dimension-key tuples of the rows are pairwise distinct. -/
theorem C5_unique_keys (cols : List String) (kpi : Row → ℚ) (rows : List Row) :
    ((aggregate cols kpi rows).map Prod.fst).Nodup :=
  nodup_aggregate cols kpi rows

/-- Claim C6: for every domain, level, and filter mapping, when no row
of the corresponding AggregationTable matches the filter, the Global
Data Layer's get returns the empty result; get is a total function into
a row list, so no error is signalled. -/
theorem C6_empty_lookup (g : GlobalDataLayer) (d : Domain) (lvl : ℕ)
    (fil : List (String × Val))
    (h : ∀ e ∈ (domainTables g d).getD lvl [],
        matchesFilter ((domainLevels d).getD lvl []) fil e.1 = false) :
    g.get d lvl fil = [] := by
  unfold GlobalDataLayer.get getRows
  rw [List.filter_eq_nil]
  intro e he
  have hh := h e he
  simp only [List.getD_eq_getElem?_getD] at hh
  simp [hh]

/-- Witness for C6: a concrete one-row factory layer queried with a
non-matching factory_id filter returns the empty result. -/
theorem C6_empty_lookup_witness :
    (buildGlobalDataLayer (numOf "waste_units") (numOf "backorder_units")
        (numOf "waste_units")
        [[("factory_id", Val.str "F1"), ("waste_units", Val.num 3)]] [] []).get
      Domain.factory 3 [("factory_id", Val.str "NO_SUCH")] = [] := by
  refine C6_empty_lookup _ _ _ _ ?_
  intro e he
  simp only [domainTables, domainLevels, buildGlobalDataLayer, factoryLevels,
    List.map_cons, List.map_nil, List.getD, aggregate, List.foldl_cons,
    List.foldl_nil, insertAdd, keyOf, lookupRow, List.getD_eq_getElem?_getD] at he ⊢
  simp at he
  simp [he, matchesFilter, assocVal]

/-- Claim C7: getFactoryKpis selects the most specific matching level:
with both factory_id and line_id given and present in the data it reads
the finest per-line level and returns a single row matching both keys;
with neither given it returns the factory-overall aggregation — one row
per factory present in the data (pairwise-distinct keys), not one
combined row. -/
theorem C7_filter_specificity (kpiF kpiD kpiS : Row → ℚ)
    (fRows dRows sRows : List Row) (f l : String)
    (hp : ∃ r ∈ fRows, keyOf ["factory_id", "line_id"] r = [Val.str f, Val.str l]) :
    ((getFactoryKpis (buildGlobalDataLayer kpiF kpiD kpiS fRows dRows sRows)
        (some f) (some l)).length = 1
      ∧ ∀ e ∈ getFactoryKpis (buildGlobalDataLayer kpiF kpiD kpiS fRows dRows sRows)
          (some f) (some l), e.1 = [Val.str f, Val.str l])
    ∧ (getFactoryKpis (buildGlobalDataLayer kpiF kpiD kpiS fRows dRows sRows)
          none none
        = aggregate ["factory_id"] kpiF fRows
      ∧ ((getFactoryKpis (buildGlobalDataLayer kpiF kpiD kpiS fRows dRows sRows)
          none none).map Prod.fst).Nodup
      ∧ ∀ f' : String,
          [Val.str f'] ∈ ((getFactoryKpis
              (buildGlobalDataLayer kpiF kpiD kpiS fRows dRows sRows)
              none none).map Prod.fst)
            ↔ ∃ r ∈ fRows, lookupRow r "factory_id" = Val.str f') := by
  have h2 : (buildGlobalDataLayer kpiF kpiD kpiS fRows dRows sRows).factory.getD 2 []
      = aggregate ["factory_id", "line_id"] kpiF fRows := by
    simp [buildGlobalDataLayer, factoryLevels]
  have h3 : (buildGlobalDataLayer kpiF kpiD kpiS fRows dRows sRows).factory.getD 3 []
      = aggregate ["factory_id"] kpiF fRows := by
    simp [buildGlobalDataLayer, factoryLevels]
  refine ⟨⟨?_, ?_⟩, ?_, ?_, ?_⟩
  · show (((buildGlobalDataLayer kpiF kpiD kpiS fRows dRows sRows).factory.getD 2
        []).filter fun e => decide (e.1 = [Val.str f, Val.str l])).length = 1
    rw [h2]
    exact filter_key_of_nodup _ _ (nodup_aggregate _ _ _)
      ((mem_aggregate_keys _ _ _ _).mpr hp)
  · intro e he
    have := List.of_mem_filter he
    simpa using this
  · show (buildGlobalDataLayer kpiF kpiD kpiS fRows dRows sRows).factory.getD 3 [] = _
    exact h3
  · show (((buildGlobalDataLayer kpiF kpiD kpiS fRows dRows sRows).factory.getD 3
        []).map Prod.fst).Nodup
    rw [h3]
    exact nodup_aggregate _ _ _
  · intro f'
    show [Val.str f'] ∈ (((buildGlobalDataLayer kpiF kpiD kpiS fRows dRows
        sRows).factory.getD 3 []).map Prod.fst) ↔ _
    rw [h3, mem_aggregate_keys]
    constructor
    · rintro ⟨r, hr, hk⟩
      exact ⟨r, hr, by simpa [keyOf] using hk⟩
    · rintro ⟨r, hr, hk⟩
      exact ⟨r, hr, by simpa [keyOf] using hk⟩

/-- Witness for C7: a concrete two-factory table, queried with both keys
given (single row) and with no keys given (one row per factory). -/
theorem C7_filter_specificity_witness :
    (getFactoryKpis (buildGlobalDataLayer (numOf "waste_units")
        (numOf "backorder_units") (numOf "waste_units")
        [ [("factory_id", Val.str "F_DUBAI_1"), ("line_id", Val.str "Bread_Line_01"),
           ("waste_units", Val.num 3)],
          [("factory_id", Val.str "F2"), ("line_id", Val.str "L1"),
           ("waste_units", Val.num 4)] ] [] [])
        (some "F_DUBAI_1") (some "Bread_Line_01")).length = 1
      ∧ ∀ e ∈ getFactoryKpis (buildGlobalDataLayer (numOf "waste_units")
          (numOf "backorder_units") (numOf "waste_units")
          [ [("factory_id", Val.str "F_DUBAI_1"), ("line_id", Val.str "Bread_Line_01"),
             ("waste_units", Val.num 3)],
            [("factory_id", Val.str "F2"), ("line_id", Val.str "L1"),
             ("waste_units", Val.num 4)] ] [] [])
          (some "F_DUBAI_1") (some "Bread_Line_01"),
          e.1 = [Val.str "F_DUBAI_1", Val.str "Bread_Line_01"] :=
  (C7_filter_specificity (numOf "waste_units") (numOf "backorder_units")
    (numOf "waste_units")
    [ [("factory_id", Val.str "F_DUBAI_1"), ("line_id", Val.str "Bread_Line_01"),
       ("waste_units", Val.num 3)],
      [("factory_id", Val.str "F2"), ("line_id", Val.str "L1"),
       ("waste_units", Val.num 4)] ] [] [] "F_DUBAI_1" "Bread_Line_01"
    ⟨[("factory_id", Val.str "F_DUBAI_1"), ("line_id", Val.str "Bread_Line_01"),
      ("waste_units", Val.num 3)], by simp, by simp [keyOf, lookupRow]⟩).1

/-- Claim C8: building the GlobalDataLayer twice from the same static
inputs yields identical AggregationTables — the build is a pure
function of its inputs — and each aggregation table's row order is the
insertion order of first occurrence of each key tuple in the input
order. -/
theorem C8_deterministic_build (kpiF kpiD kpiS : Row → ℚ)
    (fRows dRows sRows : List Row) :
    buildGlobalDataLayer kpiF kpiD kpiS fRows dRows sRows
      = buildGlobalDataLayer kpiF kpiD kpiS fRows dRows sRows
    ∧ ∀ (cols : List String) (kpi : Row → ℚ) (rows : List Row),
        (aggregate cols kpi rows).map Prod.fst = firstOccKeys cols rows :=
  ⟨rfl, fun cols kpi rows => map_fst_aggregate cols kpi rows⟩

/- ### Frontend chat pipeline (embedded from the TypeScript sources) -/

/-- A result row of a query response (`Record<string, any>[]` in the
client); its precise shape is irrelevant to the claims. -/
abbrev DataRow := List (String × String)

/-- The `QueryResponse` interface of the API client.  `sql`, `viz` and
`mime` may be `null`, modelled as `Option`. -/
structure QueryResponse where
  sql : Option String
  data : List DataRow
  summary : String
  viz : Option String
  mime : Option String
deriving DecidableEq, Repr

/-- The JSON body of a non-ok backend response, as read by `sendQuery`
(`errorData`): any of these fields may be absent. -/
structure ErrBody where
  summary : Option String
  sql : Option String
  data : Option (List DataRow)
  viz : Option String
  mime : Option String
  error : Option String
  details : Option String
deriving DecidableEq, Repr

/-- The observable part of the HTTP response `sendQuery` branches on:
the ok flag, the status text, the body when it parses as JSON
(`none` models a parse failure), and the parsed body used on the ok
path. -/
structure HttpResponse where
  ok : Bool
  statusText : String
  jsonBody : Option ErrBody
  okJson : QueryResponse
deriving DecidableEq, Repr

/-- JavaScript truthiness of an optional string field: absent and the
empty string are falsy. -/
def jsTruthy : Option String → Bool
  | none => false
  | some s => !(s == "")

/-- JavaScript `x || null` on an optional string field. -/
def jsOrNull (o : Option String) : Option String :=
  match o with
  | some s => if s = "" then none else some s
  | none => none

/-- JavaScript `x || []` on an optional array field (an empty array is
truthy, so only an absent field falls back). -/
def jsOrEmptyList (o : Option (List DataRow)) : List DataRow := o.getD []

/-- JavaScript `x || d` on an optional string with a string default. -/
def jsOr (o : Option String) (d : String) : String :=
  match o with
  | some s => if s = "" then d else s
  | none => d

/-- The `errorData` fallback built when the non-ok body fails to parse:
`{ error: response.statusText }`. -/
def defaultErrBody (statusText : String) : ErrBody :=
  { summary := none, sql := none, data := none, viz := none, mime := none,
    error := some statusText, details := none }

/-- Embedded from `src/components/floating-bot/api.ts` (`sendQuery`),
restricted to the response handling: on an ok response the parsed body
is returned; on a non-ok response the body is read as JSON (falling
back to `{ error: statusText }`), a truthy `summary` yields a success
with defaulted fields, and otherwise an error is thrown whose message
is `error || details || "API error: " + statusText`. -/
def sendQuery (resp : HttpResponse) : Except String QueryResponse :=
  if resp.ok then Except.ok resp.okJson
  else
    let errorData : ErrBody :=
      match resp.jsonBody with
      | some b => b
      | none => defaultErrBody resp.statusText
    if jsTruthy errorData.summary then
      Except.ok
        { sql := jsOrNull errorData.sql,
          data := jsOrEmptyList errorData.data,
          summary := errorData.summary.getD "",
          viz := jsOrNull errorData.viz,
          mime := jsOrNull errorData.mime }
    else
      Except.error
        (jsOr errorData.error (jsOr errorData.details
          ("API error: " ++ resp.statusText)))

/-- Whitespace as stripped by JavaScript's `String.prototype.trim`
(the characters relevant to chat input). -/
def isWs (c : Char) : Bool :=
  c == ' ' || c == '\t' || c == '\n' || c == '\r'

/-- Drop leading whitespace characters. -/
def dropWhileWs : List Char → List Char
  | [] => []
  | c :: cs => if isWs c then dropWhileWs cs else c :: cs

/-- JavaScript `s.trim()`: strip leading and trailing whitespace. -/
def trimStr (s : String) : String :=
  String.mk (List.reverse (dropWhileWs (List.reverse (dropWhileWs s.data))))

/-- Message roles in the chat context. -/
inductive Role where
  | user | assistant
deriving DecidableEq, Repr

/-- The `ChatMessage` shape of the chat context (id and timestamp
omitted: no claim concerns them). -/
structure ChatMsg where
  role : Role
  content : String
  sql : Option String
  data : Option (List DataRow)
  viz : Option String
  mime : Option String
deriving DecidableEq, Repr

/-- The React state managed by `ChatProvider`. -/
structure ChatState where
  messages : List ChatMsg
  input : String
  isLoading : Bool
deriving DecidableEq, Repr

/-- How the awaited `sendQuery` call settles: a resolved response, a
rejection with an `Error` instance, or a rejection with any other
value. -/
inductive QueryOutcome where
  | ok (r : QueryResponse)
  | errObj (msg : String)
  | errOther
deriving DecidableEq, Repr

/-- The assistant message appended by `sendCurrentMessage`: on success
its content is `response.summary || fallback`, on an `Error` rejection
it is the message prefixed with "Error: ", otherwise the translated
`chat.error` text. -/
def assistantMessageOf (chatError : String) (outcome : QueryOutcome) : ChatMsg :=
  match outcome with
  | QueryOutcome.ok r =>
      { role := Role.assistant,
        content :=
          if r.summary = "" then
            "I couldn\x27t generate a response. Please try again."
          else r.summary,
        sql := r.sql, data := some r.data, viz := r.viz, mime := r.mime }
  | QueryOutcome.errObj m =>
      { role := Role.assistant, content := "Error: " ++ m,
        sql := none, data := none, viz := none, mime := none }
  | QueryOutcome.errOther =>
      { role := Role.assistant, content := chatError,
        sql := none, data := none, viz := none, mime := none }

/-- Embedded from `ChatContext.tsx` (`sendCurrentMessage`): a no-op on
blank (post-trim) input or while a request is in flight; otherwise the
trimmed user message is appended, the input cleared, and after the
query settles the assistant message is appended and loading ends. -/
def sendCurrentMessage (chatError : String) (outcome : QueryOutcome)
    (s : ChatState) : ChatState :=
  if trimStr s.input == "" || s.isLoading then s
  else
    let userMessage : ChatMsg :=
      { role := Role.user, content := trimStr s.input,
        sql := none, data := none, viz := none, mime := none }
    { messages := (s.messages ++ [userMessage])
        ++ [assistantMessageOf chatError outcome],
      input := "",
      isLoading := false }

/-- Claim C9: with non-blank input and no request in flight,
sendCurrentMessage appends exactly two messages — first a user message
carrying the trimmed input, then one assistant message — clears the
input, and ends with isLoading false; a rejection with an Error yields
an assistant content of the error message prefixed with "Error: "
rather than a propagated exception.  With blank (post-trim) input or a
request in flight, the state is left unchanged. -/
theorem C9_sendCurrentMessage_behaviour (chatError : String)
    (outcome : QueryOutcome) (s : ChatState) :
    (trimStr s.input ≠ "" → s.isLoading = false →
      (sendCurrentMessage chatError outcome s).messages
          = s.messages ++
            [{ role := Role.user, content := trimStr s.input, sql := none,
               data := none, viz := none, mime := none },
             assistantMessageOf chatError outcome]
        ∧ (assistantMessageOf chatError outcome).role = Role.assistant
        ∧ (sendCurrentMessage chatError outcome s).isLoading = false
        ∧ (∀ m : String, outcome = QueryOutcome.errObj m →
            (assistantMessageOf chatError outcome).content = "Error: " ++ m))
    ∧ (trimStr s.input = "" ∨ s.isLoading = true →
        sendCurrentMessage chatError outcome s = s) := by
  constructor
  · intro hne hload
    have hc : (trimStr s.input == "" || s.isLoading) = false := by
      simp [hne, hload]
    refine ⟨?_, ?_, ?_, ?_⟩
    · simp [sendCurrentMessage, hc]
    · cases outcome <;> rfl
    · simp [sendCurrentMessage, hc]
    · rintro m rfl
      rfl
  · rintro (h | h) <;> simp [sendCurrentMessage, h]

/-- Witness for C9: a concrete invocation with input " hi " and an
Error rejection "boom" appends the trimmed user message and the
"Error: boom" assistant message and ends not loading. -/
theorem C9_sendCurrentMessage_behaviour_witness :
    (sendCurrentMessage "chat.error" (QueryOutcome.errObj "boom")
        { messages := [], input := " hi ", isLoading := false }).messages
      = [{ role := Role.user, content := trimStr " hi ", sql := none,
           data := none, viz := none, mime := none },
         assistantMessageOf "chat.error" (QueryOutcome.errObj "boom")]
    ∧ (sendCurrentMessage "chat.error" (QueryOutcome.errObj "boom")
        { messages := [], input := " hi ", isLoading := false }).isLoading = false
    ∧ (assistantMessageOf "chat.error" (QueryOutcome.errObj "boom")).content
        = "Error: " ++ "boom" := by
  have h := (C9_sendCurrentMessage_behaviour "chat.error"
    (QueryOutcome.errObj "boom")
    { messages := [], input := " hi ", isLoading := false }).1
    (by decide) rfl
  exact ⟨by simpa using h.1, h.2.2.1, h.2.2.2 "boom" rfl⟩

/-- Claim C10 as stated is false on the code: a non-ok body can carry a
summary field whose value is the empty string — the field is present,
yet sendQuery throws, because the code tests JavaScript truthiness of
`errorData.summary`, not field presence.  Concretely, an ok = false
response with body `{"summary": ""}` throws "API error: Bad Request". -/
theorem C10_counterexample_empty_summary :
    sendQuery
        { ok := false, statusText := "Bad Request",
          jsonBody :=
            some { summary := some "", sql := none, data := none, viz := none,
                   mime := none, error := none, details := none },
          okJson :=
            { sql := none, data := [], summary := "", viz := none,
              mime := none } }
      = Except.error "API error: Bad Request"
    ∧ (some (("" : String)) : Option String) ≠ none := by
  exact ⟨rfl, by decide⟩

/-- Claim C10 (amended): when the backend's response has ok = false and
its body parses as JSON containing a truthy (non-empty) summary field,
sendQuery resolves successfully with that summary, data defaulting to
the empty list and sql, viz, mime defaulting to null; it throws exactly
when such a non-ok body carries no truthy summary — the field absent or
the empty string. -/
theorem C10_nonok_summary_recovery (resp : HttpResponse) (b : ErrBody)
    (hok : resp.ok = false) (hb : resp.jsonBody = some b) :
    (∀ s : String, b.summary = some s → s ≠ "" →
      sendQuery resp = Except.ok
        { sql := jsOrNull b.sql, data := jsOrEmptyList b.data,
          summary := s, viz := jsOrNull b.viz, mime := jsOrNull b.mime })
    ∧ (b.summary = none ∨ b.summary = some "" →
        sendQuery resp = Except.error (jsOr b.error (jsOr b.details
          ("API error: " ++ resp.statusText)))) := by
  constructor
  · intro s hs hne
    simp [sendQuery, hok, hb, jsTruthy, hs, hne]
  · rintro (hs | hs) <;> simp [sendQuery, hok, hb, jsTruthy, hs]

/-- Witness for C10: a concrete non-ok response whose body carries the
truthy summary "backend failed" resolves successfully with defaulted
fields. -/
theorem C10_nonok_summary_recovery_witness :
    sendQuery
        { ok := false, statusText := "Internal Server Error",
          jsonBody :=
            some { summary := some "backend failed", sql := none, data := none,
                   viz := none, mime := none, error := none, details := none },
          okJson :=
            { sql := none, data := [], summary := "", viz := none,
              mime := none } }
      = Except.ok
          { sql := none, data := [], summary := "backend failed",
            viz := none, mime := none } := by
  have h := (C10_nonok_summary_recovery
    { ok := false, statusText := "Internal Server Error",
      jsonBody :=
        some { summary := some "backend failed", sql := none, data := none,
               viz := none, mime := none, error := none, details := none },
      okJson :=
        { sql := none, data := [], summary := "", viz := none,
          mime := none } }
    { summary := some "backend failed", sql := none, data := none, viz := none,
      mime := none, error := none, details := none }
    rfl rfl).1 "backend failed" rfl (by decide)
  simpa [jsOrNull, jsOrEmptyList] using h

end AlHatab
